import Mathlib

/-!
Verification of the `pathlib_alt` path library (pure-path core).

Paths are modelled as lists of characters (`Str`); a parsed path is a triple
`(drive, root, tail)` exactly as produced by the `_parse_path` class methods.
All definitions are shallow embeddings of the Python sources in `pathlib_/`:
`posix.py`, `windows.py`, `_base.py` and the duplicated copies in `__init__.py`.
Python exceptions are modelled with `Except PyErr`.
-/

namespace PathlibAlt

abbrev Str := List Char

/-- The Python exceptions surfaced by the pure-path core. -/
inductive PyErr where
  | valueError
  | typeError
  | notImplementedError
deriving DecidableEq, Repr

/-- `BasePurePath.SEPARATOR` for the POSIX variant (`'/'`). -/
def SEPARATOR_POSIX : Char := '/'

/-- `PureWindowsPath.SEPARATOR` (`'\\'`). -/
def SEPARATOR_WIN : Char := '\\'

/-- `BasePurePath.SUFFIX_SEPARATOR` (`'.'`), shared by both variants. -/
def SUFFIX_SEPARATOR : Char := '.'

/-- `PureWindowsPath.INVALID_PATH_CHARS` from `windows.py`. -/
def WIN_INVALID_PATH_CHARS : List Char := ['<', '>', ':', '"', '/', '|', '?', '*']

/-- `PurePosixPath` inherits `BasePurePath.INVALID_PATH_CHARS = frozenset()`. -/
def POSIX_INVALID_PATH_CHARS : List Char := []

/-- `PureWindowsPath.CASE_SENSITIVE` from `windows.py`. -/
def CASE_SENSITIVE_WIN : Bool := false

/-- Python single-character `str.split(sep)`: never drops empty pieces and
returns `['']` on the empty string. -/
def strSplit (c : Char) : Str → List Str
  | [] => [[]]
  | x :: xs =>
    if x = c then [] :: strSplit c xs
    else
      match strSplit c xs with
      | [] => [[x]]
      | y :: ys => (x :: y) :: ys

/-- Python `sep.join(pieces)`. -/
def strJoin (sep : Str) : List Str → Str
  | [] => []
  | [x] => x
  | x :: y :: ys => x ++ sep ++ strJoin sep (y :: ys)

/-- Python `part[-1:] in [' ', '.']` (used by the Windows tail validator);
the empty slice of an empty part is not in the list. -/
def endsInSpaceOrDot (part : Str) : Bool :=
  match part.getLast? with
  | some c => c = ' ' || c = '.'
  | none => false

/-- `PurePosixPath._parse_path` from `pathlib_/posix.py` (the operative copy):
handles the POSIX leading-double-slash special case. -/
def posixParsePath : Str → Str × Str × List Str
  | [] => ([], [], [])
  | c :: rest =>
    if c = SEPARATOR_POSIX then
      if rest.take 1 = [SEPARATOR_POSIX] ∧ (rest.drop 1).take 1 ≠ [SEPARATOR_POSIX] then
        ([], [SEPARATOR_POSIX, SEPARATOR_POSIX],
          if rest.drop 1 = [] then [] else strSplit SEPARATOR_POSIX (rest.drop 1))
      else
        ([], [SEPARATOR_POSIX], if rest = [] then [] else strSplit SEPARATOR_POSIX rest)
    else
      ([], [], strSplit SEPARATOR_POSIX (c :: rest))

/-- `PurePosixPath._parse_path` from `pathlib_/__init__.py` (the duplicated copy):
identical except that it has no leading-double-slash case. -/
def posixParsePathInit : Str → Str × Str × List Str
  | [] => ([], [], [])
  | c :: rest =>
    if c = SEPARATOR_POSIX then
      ([], [SEPARATOR_POSIX], if rest = [] then [] else strSplit SEPARATOR_POSIX rest)
    else
      ([], [], strSplit SEPARATOR_POSIX (c :: rest))

/-- `BasePurePath.__str__`: `(anchor + SEPARATOR.join(tail)) or '.'`. -/
def pathStr (sep : Char) (drive root : Str) (tail : List Str) : Str :=
  let s := (drive ++ root) ++ strJoin [sep] tail
  if s = [] then ['.'] else s

/-- `str(PurePosixPath(s))`: parse then print. -/
def posixRoundTrip (s : Str) : Str :=
  let p := posixParsePath s
  pathStr SEPARATOR_POSIX p.1 p.2.1 p.2.2

/-- Windows `path.replace('/', cls.SEPARATOR)`: the syntax-level forward-slash
to backslash substitution done first by `PureWindowsPath._parse_path`. -/
def winNormalize (s : Str) : Str :=
  s.map (fun ch => if ch = '/' then SEPARATOR_WIN else ch)

/-- `PureWindowsPath._parse_path` from `pathlib_/windows.py`, with the class
attribute `INVALID_PATH_CHARS` made an explicit state component: the method
reads nothing from it but *assigns* `cls.INVALID_PATH_CHARS = frozenset()` in
the WinNT-namespace branch, so the result pairs the parsed triple with the
value the class attribute holds afterwards.  Python slice tests such as
`path[1:2] == SEPARATOR` become `(path.drop 1).take 1 = [SEPARATOR_WIN]`. -/
def winParsePathS (invalidChars : List Char) (path0 : Str) :
    Except PyErr ((Str × Str × List Str) × List Char) :=
  let path := winNormalize path0
  if path.take 1 = [SEPARATOR_WIN] then
    if (path.drop 1).take 1 = [SEPARATOR_WIN] then
      if ((path.drop 2).take 1 = ['?'] ∨ (path.drop 2).take 1 = ['.']) ∧
          (path.drop 3).take 1 = [SEPARATOR_WIN] then
        -- Namespace prefix, e.g. \\?\ or \\.\
        if (path.drop 2).take 1 = ['.'] then
          -- Win32 Device Namespace, e.g. \\.\COM56
          .ok ((path.take 3, (path.drop 3).take 1, strSplit SEPARATOR_WIN (path.drop 4)),
            invalidChars)
        else if (path.drop 4).take 4 = ['U', 'N', 'C', SEPARATOR_WIN] then
          -- Win32 UNC drives through WinNT Namespace, e.g. \\?\UNC\server\share\x
          let late_path := strSplit SEPARATOR_WIN (path.drop 8)
          let drive := (late_path.take 2).filter (fun p => p ≠ [])
          let tail := late_path.drop 2
          if (path.drop 8 ≠ [] ∧ drive = []) ∨
              ((late_path.drop 1).take 1 ≠ [] ∧ late_path.take 1 = []) ∨
              (drive.length < 2 ∧ tail ≠ []) then
            .error .valueError
          else
            .ok ((path.take 8 ++ strJoin [SEPARATOR_WIN] drive,
              if tail ≠ [] then [SEPARATOR_WIN] else [], tail), invalidChars)
        else if (path.drop 5).take 1 = [':'] ∧ (path.drop 6).take 1 = [SEPARATOR_WIN] then
          -- Win32 File through WinNT Namespace, e.g. \\?\X:\Windows
          .ok ((path.take 6, (path.drop 6).take 1, strSplit SEPARATOR_WIN (path.drop 7)),
            invalidChars)
        else
          -- WinNT Namespace: the source clears cls.INVALID_PATH_CHARS here
          .ok ((path.take 3, (path.drop 3).take 1, strSplit SEPARATOR_WIN (path.drop 4)), [])
      else
        -- UNC drives, e.g. \\server or \\server\share\path
        let late_path := strSplit SEPARATOR_WIN (path.drop 2)
        let drive := (late_path.take 2).filter (fun p => p ≠ [])
        let tail := late_path.drop 2
        if (path.drop 2 ≠ [] ∧ drive = []) ∨
            ((late_path.drop 1).take 1 ≠ [] ∧ late_path.take 1 = []) ∨
            (drive.length < 2 ∧ tail ≠ []) then
          .error .valueError
        else
          .ok ((strJoin [SEPARATOR_WIN] ([[], []] ++ drive),
            if tail ≠ [] then [SEPARATOR_WIN] else [], tail), invalidChars)
    else
      -- Relative path with root, e.g. \Windows
      .ok (([], path.take 1, strSplit SEPARATOR_WIN (path.drop 1)), invalidChars)
  else if (path.drop 1).take 1 = [':'] then
    if (path.drop 2).take 1 = [SEPARATOR_WIN] then
      -- Absolute drive-letter path, e.g. X:\Windows
      .ok ((path.take 2, (path.drop 2).take 1, strSplit SEPARATOR_WIN (path.drop 3)),
        invalidChars)
    else
      -- Relative path with drive, e.g. X:Windows
      .ok ((path.take 2, [], strSplit SEPARATOR_WIN (path.drop 2)), invalidChars)
  else
    -- Relative path, e.g. Windows
    .ok (([], [], strSplit SEPARATOR_WIN path), invalidChars)

/-- `PureWindowsPath._parse_path` started from the class's initial
`INVALID_PATH_CHARS`, projecting away the state component. -/
def winParsePath (s : Str) : Except PyErr (Str × Str × List Str) :=
  match winParsePathS WIN_INVALID_PATH_CHARS s with
  | .error e => .error e
  | .ok (res, _) => .ok res

/-- `BasePurePath._validate_tail_parts`: raises `ValueError` when some part
contains a character of `INVALID_PATH_CHARS ∪ {SEPARATOR}`. -/
def baseValidateTailParts (invalidChars : List Char) (sep : Char) (parts : List Str) :
    Except PyErr Unit :=
  if parts = [] then .ok ()
  else if parts.any (fun part => part.any (fun ch => ch ∈ invalidChars || ch = sep)) then
    .error .valueError
  else .ok ()

/-- `PureWindowsPath._validate_tail_parts`: the base check, then a `ValueError`
for any part whose last character is a space or a dot. -/
def winValidateTailParts (invalidChars : List Char) (parts : List Str) : Except PyErr Unit :=
  match baseValidateTailParts invalidChars SEPARATOR_WIN parts with
  | .error e => .error e
  | .ok _ =>
    if parts.any endsInSpaceOrDot then .error .valueError else .ok ()

/-- `PurePosixPath(s)`: `__new__` parses and then validates the tail
(`PurePosixPath` keeps the empty `INVALID_PATH_CHARS`). -/
def posixFromString (s : Str) : Except PyErr (Str × Str × List Str) :=
  let p := posixParsePath s
  match baseValidateTailParts POSIX_INVALID_PATH_CHARS SEPARATOR_POSIX p.2.2 with
  | .error e => .error e
  | .ok _ => .ok p

/-- `PureWindowsPath(s)`: `__new__` parses (which may reassign the class's
`INVALID_PATH_CHARS`) and then validates the tail against the attribute's
value after parsing.  Returns the path triple and the class state left behind. -/
def winFromStringS (invalidChars : List Char) (s : Str) :
    Except PyErr ((Str × Str × List Str) × List Char) :=
  match winParsePathS invalidChars s with
  | .error e => .error e
  | .ok (res, chars2) =>
    match winValidateTailParts chars2 res.2.2 with
    | .error e => .error e
    | .ok _ => .ok (res, chars2)

/-- The five derived name fields of `BasePurePath._parse_name`. -/
structure NameInfo where
  name : Str
  stem : Str
  suffix : Str
  pureStem : Str
  suffixes : List Str
deriving DecidableEq, Repr

/-- `BasePurePath._parse_name`: derives `name`, `stem`, `suffix`, `pure_stem`
and `suffixes` from the last tail segment.  `name.lstrip('.')` is
`dropWhile (· = '.')`, `split('.')[1:]` is `(strSplit '.' ·).drop 1`, and the
Python negative slices `name[:-len(x)]` become `name.take (name.length - _)`
(both clamp the same way). -/
def parseName (tail : List Str) : NameInfo :=
  let name := tail.getLastD []
  let suffixes :=
    if name = [] ∨ name.getLast? = some SUFFIX_SEPARATOR then []
    else
      ((strSplit SUFFIX_SEPARATOR (name.dropWhile (· = SUFFIX_SEPARATOR))).drop 1).map
        (fun s => SUFFIX_SEPARATOR :: s)
  let suffix := suffixes.getLastD []
  let stem := if suffix ≠ [] then name.take (name.length - suffix.length) else name
  let pureStem := if suffixes ≠ [] then name.take (name.length - suffixes.flatten.length) else name
  ⟨name, stem, suffix, pureStem, suffixes⟩

/-- `PureWindowsPath.RESERVED_NAMES`:
`['CON','PRN','AUX','NUL'] + ['COM{}'.format(i) for i in range(9)] + ['LPT{}'.format(i) for i in range(9)]`. -/
def RESERVED_NAMES : List Str :=
  (["CON", "PRN", "AUX", "NUL"].map String.toList) ++
    ((List.range 9).map (fun i => ("COM" ++ toString i).toList)) ++
    ((List.range 9).map (fun i => ("LPT" ++ toString i).toList))

/-- `PureWindowsPath.is_reserved`: when `pure_stem` is truthy, tests whether
`frozenset((pure_stem.upper(),)) & RESERVED_NAMES` is non-empty (the class is
case-insensitive, so the upper-cased stem is used); otherwise `False`.
`str.upper` is embedded character-wise as `Char.toUpper`. -/
def winIsReserved (pureStem : Str) : Bool :=
  if pureStem ≠ [] then
    decide ((if CASE_SENSITIVE_WIN then pureStem else pureStem.map Char.toUpper) ∈ RESERVED_NAMES)
  else false

/-- `BasePurePath.JOINPATH_INSANE_BEHAVIOR`: `False`, and never overridden to
`True` by any class shipped in the package. -/
def JOINPATH_INSANE_BEHAVIOR : Bool := false

/-- Python evaluation of the call expression `path.anchor()` in
`BasePurePath.joinpath`: `anchor` is the `str` instance attribute assigned in
`__new__`, so calling it raises `TypeError: 'str' object is not callable`,
whatever string it holds. -/
def callStrAttr (_anchor : Str) : Except PyErr Str := .error .typeError

/-- The argument loop of `BasePurePath.joinpath` for the POSIX variant: each
argument is converted with `convert_path` (i.e. constructed, which parses and
validates), then the guard chain
`if self.JOINPATH_INSANE_BEHAVIOR: ... elif path.anchor(): ...` runs; on the
`else` branch the argument's tail is accumulated. -/
def joinpathTails : List Str → Except PyErr (List Str)
  | [] => .ok []
  | a :: rest =>
    match posixFromString a with
    | .error e => .error e
    | .ok path =>
      if JOINPATH_INSANE_BEHAVIOR then .error .notImplementedError
      else
        match callStrAttr (path.1 ++ path.2.1) with
        | .error e => .error e
        | .ok anch =>
          if anch ≠ [] then .error .valueError
          else
            match joinpathTails rest with
            | .error e => .error e
            | .ok ts => .ok (path.2.2 ++ ts)

/-- `BasePurePath.joinpath` for the POSIX variant: run the argument loop and
rebuild from `(self.drive, self.root, self._tail + tails)` (the rebuild
re-validates the tail, which for POSIX tails always succeeds). -/
def joinpathPosix (self : Str × Str × List Str) (args : List Str) :
    Except PyErr (Str × Str × List Str) :=
  match joinpathTails args with
  | .error e => .error e
  | .ok tails =>
    match baseValidateTailParts POSIX_INVALID_PATH_CHARS SEPARATOR_POSIX (self.2.2 ++ tails) with
    | .error e => .error e
    | .ok _ => .ok (self.1, self.2.1, self.2.2 ++ tails)

/-- Length of the longest common prefix of two segment lists. -/
def commonPrefixLen : List Str → List Str → Nat
  | a :: as, b :: bs => if a = b then commonPrefixLen as bs + 1 else 0
  | _, _ => 0

/-- Whether a parsed path contains a literal `'.'` or `'..'` tail segment. -/
def hasDotSegments (p : Str × Str × List Str) : Bool :=
  p.2.2.any (fun seg => seg = ['.'] || seg = ['.', '.'])

/-- Modelled from the spec: `BaseOSPurePath.relative_to(other, walk_up=True)`.
The class `BaseOSPurePath` is imported by `pathlib_/posix.py` from
`pathlib_._local` but is absent from the sources; per the spec, when the
anchors agree and neither path contains literal `'.'`/`'..'` segments, the
result is the minimal `..`-segment climb from `other` up to the common
ancestor followed by the remaining descent into `self`, and any other input
fails with the not-relative `ValueError`. -/
def relativeToWalkUp (self other : Str × Str × List Str) :
    Except PyErr (Str × Str × List Str) :=
  if self.1 ++ self.2.1 ≠ other.1 ++ other.2.1 then .error .valueError
  else if hasDotSegments self || hasDotSegments other then .error .valueError
  else
    let common := commonPrefixLen self.2.2 other.2.2
    .ok ([], [],
      List.replicate (other.2.2.length - common) ['.', '.'] ++ self.2.2.drop common)

/-- Scan a bracket expression body up to the closing `']'`; `none` when the
class is unterminated. -/
def classScan : Str → List Char → Option (List Char × Str)
  | [], _ => none
  | c :: cs, acc => if c = ']' then some (acc.reverse, cs) else classScan cs (c :: acc)

/-- Modelled from the spec: the per-segment wildcard matcher produced by the
glob/fnmatch pattern compiler (`pathlib_.fnmatch_`/`pathlib_.glob_` are
imported by the test-suite but absent from the sources).  `*` matches any run
of characters within the segment, `?` exactly one, `[...]` a character class
with `!` as leading negation and a literal `]` as first member, and an
unterminated `[` degrades to a literal `[`; compilation is total, so matching
is a plain boolean function.  (The hidden-file and case-sensitivity
configuration is omitted: it does not affect the error behaviour.) -/
def segMatch : Str → Str → Bool
  | [], [] => true
  | [], _ :: _ => false
  | p :: ps, text =>
    if p = '*' then
      segMatch ps text ||
        (match text with
         | [] => false
         | _ :: ts => segMatch (p :: ps) ts)
    else if p = '?' then
      match text with
      | [] => false
      | _ :: ts => segMatch ps ts
    else if p = '[' then
      let scanned :=
        match ps with
        | '!' :: ']' :: rest => (classScan rest [']']).map (fun r => (true, r))
        | '!' :: rest => (classScan rest []).map (fun r => (true, r))
        | ']' :: rest => (classScan rest [']']).map (fun r => (false, r))
        | rest => (classScan rest []).map (fun r => (false, r))
      match scanned with
      | none =>
        match text with
        | [] => false
        | t :: ts => p = t && segMatch ps ts
      | some (neg, members, rest) =>
        match text with
        | [] => false
        | t :: ts => (members.contains t != neg) && segMatch rest ts
    else
      match text with
      | [] => false
      | t :: ts => p = t && segMatch ps ts
termination_by p t => (t.length, p.length)
decreasing_by all_goals (simp_wf; omega)

/-- Modelled from the spec: `BaseOSPurePath.match` (absent from the sources;
only its tests are shipped).  The empty pattern raises `ValueError`, as the
repository's own test `test_match_empty` asserts; otherwise the pattern is
parsed with the same syntax, `**` degrades to `*` (`match` is non-recursive),
and the pattern's segments are aligned right-anchored against the path's
trailing simplified segments — unless the pattern is rooted, which forces full
alignment from the anchor. -/
def matchPosix (self : Str × Str × List Str) (pattern : Str) : Except PyErr Bool :=
  if pattern = [] then .error .valueError
  else
    let pp := posixParsePath pattern
    let panchor := pp.1 ++ pp.2.1
    let pparts := pp.2.2.filter (fun s => s ≠ [])
    let sparts := self.2.2.filter (fun s => s ≠ [])
    if panchor ≠ [] then
      .ok (decide (self.1 ++ self.2.1 = panchor) &&
        decide (pparts.length = sparts.length) &&
        (pparts.zip sparts).all (fun pr => segMatch pr.1 pr.2))
    else
      .ok (decide (pparts.length ≤ sparts.length) &&
        (pparts.zip (sparts.drop (sparts.length - pparts.length))).all
          (fun pr => segMatch pr.1 pr.2))

/-! ## Helper lemmas about the string primitives -/

theorem strSplit_ne_nil (c : Char) (l : Str) : strSplit c l ≠ [] := by
  induction l with
  | nil => simp [strSplit]
  | cons x xs ih =>
    simp only [strSplit]
    split
    · simp
    · cases h : strSplit c xs with
      | nil => simp
      | cons y ys => simp

theorem strJoin_cons_head (c : Char) (x : Char) (y : Str) (ys : List Str) :
    strJoin [c] ((x :: y) :: ys) = x :: strJoin [c] (y :: ys) := by
  cases ys with
  | nil => simp [strJoin]
  | cons z zs => simp [strJoin]

theorem strJoin_strSplit (c : Char) (l : Str) : strJoin [c] (strSplit c l) = l := by
  induction l with
  | nil => simp [strSplit, strJoin]
  | cons x xs ih =>
    simp only [strSplit]
    split
    · rename_i hx
      cases h : strSplit c xs with
      | nil => exact absurd h (strSplit_ne_nil c xs)
      | cons y ys =>
        rw [h] at ih
        simpa [strJoin, hx] using ih
    · cases h : strSplit c xs with
      | nil => exact absurd h (strSplit_ne_nil c xs)
      | cons y ys =>
        rw [h] at ih
        rw [strJoin_cons_head, ih]

theorem strJoin_eq_head_append (c : Char) (p : Str) (ps : List Str) :
    strJoin [c] (p :: ps) = p ++ (ps.map (fun s => c :: s)).flatten := by
  induction ps generalizing p with
  | nil => simp [strJoin]
  | cons q qs ih => simp [strJoin, ih q, List.append_assoc]

theorem strSplit_decomp (c : Char) (l : Str) (p : Str) (ps : List Str)
    (h : strSplit c l = p :: ps) : l = p ++ (ps.map (fun s => c :: s)).flatten := by
  have := strJoin_strSplit c l
  rw [h, strJoin_eq_head_append] at this
  exact this.symm

theorem take_sub_length_append (a b : Str) :
    (a ++ b).take ((a ++ b).length - b.length) = a := by
  have h : (a ++ b).length - b.length = a.length := by
    simp [List.length_append]
  rw [h]
  exact List.take_left a b

theorem take_one_eq_cons {l : Str} {c : Char} (h : l.take 1 = [c]) : l = c :: l.drop 1 := by
  cases l with
  | nil => simp at h
  | cons x xs =>
    simp only [List.take, List.drop] at h ⊢
    simp at h
    simp [h]

theorem take_two_eq {l : Str} {a b : Char} (h1 : l.take 1 = [a])
    (h2 : (l.drop 1).take 1 = [b]) : l.take 2 = [a, b] := by
  have e1 := take_one_eq_cons h1
  have e2 := take_one_eq_cons h2
  rw [e1, e2]
  simp

theorem posixRoundTrip_eq (s : Str) (h : s ≠ []) : posixRoundTrip s = s := by
  cases s with
  | nil => exact absurd rfl h
  | cons c rest =>
    simp only [posixRoundTrip, posixParsePath]
    by_cases hc : c = SEPARATOR_POSIX
    · rw [if_pos hc]
      by_cases h1 : rest.take 1 = [SEPARATOR_POSIX] ∧ (rest.drop 1).take 1 ≠ [SEPARATOR_POSIX]
      · rw [if_pos h1]
        obtain ⟨rd, hrd⟩ : ∃ rd, rest = SEPARATOR_POSIX :: rd :=
          ⟨rest.drop 1, take_one_eq_cons h1.1⟩
        subst hrd
        simp only [List.drop_succ_cons, List.drop_zero]
        by_cases h2 : rd = []
        · rw [if_pos h2]
          subst h2
          simp [pathStr, strJoin, hc]
        · rw [if_neg h2]
          simp [pathStr, strJoin_strSplit, hc]
      · rw [if_neg h1]
        by_cases h2 : rest = []
        · rw [if_pos h2]
          subst h2
          simp [pathStr, strJoin, hc]
        · rw [if_neg h2]
          simp [pathStr, strJoin_strSplit, hc]
    · rw [if_neg hc]
      simp [pathStr, strJoin_strSplit]

theorem winParsePathS_roundtrip (chars : List Char) (s : Str) (hne : s ≠ [])
    (h2 : (winNormalize s).take 2 ≠ [SEPARATOR_WIN, SEPARATOR_WIN]) (d r : Str)
    (t : List Str) (chars2 : List Char)
    (hok : winParsePathS chars s = Except.ok ((d, r, t), chars2)) :
    pathStr SEPARATOR_WIN d r t = winNormalize s := by
  have hpne : winNormalize s ≠ [] := by
    simpa [winNormalize] using hne
  simp only [winParsePathS] at hok
  by_cases b1 : (winNormalize s).take 1 = [SEPARATOR_WIN]
  · by_cases b2 : ((winNormalize s).drop 1).take 1 = [SEPARATOR_WIN]
    · exact absurd (take_two_eq b1 b2) h2
    · rw [if_pos b1, if_neg b2] at hok
      simp only [Except.ok.injEq, Prod.mk.injEq] at hok
      obtain ⟨⟨hd, hr, ht⟩, _⟩ := hok
      subst hd hr ht
      simp only [pathStr, strJoin_strSplit, List.nil_append]
      rw [List.take_append_drop]
      simp [hpne]
  · by_cases b3 : ((winNormalize s).drop 1).take 1 = [':']
    · rw [if_neg b1, if_pos b3] at hok
      by_cases b4 : ((winNormalize s).drop 2).take 1 = [SEPARATOR_WIN]
      · rw [if_pos b4] at hok
        simp only [Except.ok.injEq, Prod.mk.injEq] at hok
        obtain ⟨⟨hd, hr, ht⟩, _⟩ := hok
        subst hd hr ht
        have e2 := take_one_eq_cons b4
        have e3 : ((winNormalize s).drop 2).drop 1 = (winNormalize s).drop 3 := by
          rw [List.drop_drop]
        rw [e3] at e2
        simp only [pathStr, strJoin_strSplit]
        rw [List.append_assoc, b4]
        have : [SEPARATOR_WIN] ++ (winNormalize s).drop 3 = (winNormalize s).drop 2 := by
          rw [e2]; rfl
        rw [this, List.take_append_drop]
        simp [hpne]
      · rw [if_neg b4] at hok
        simp only [Except.ok.injEq, Prod.mk.injEq] at hok
        obtain ⟨⟨hd, hr, ht⟩, _⟩ := hok
        subst hd hr ht
        simp only [pathStr, strJoin_strSplit, List.append_nil]
        rw [List.take_append_drop]
        simp [hpne]
    · rw [if_neg b1, if_neg b3] at hok
      simp only [Except.ok.injEq, Prod.mk.injEq] at hok
      obtain ⟨⟨hd, hr, ht⟩, _⟩ := hok
      subst hd hr ht
      simp only [pathStr, strJoin_strSplit, List.nil_append]
      simp [hpne]

theorem winValidate_eq_ite (inv : List Char) (parts : List Str) :
    winValidateTailParts inv parts =
      if (parts.any fun part => part.any fun ch => ch ∈ inv || ch = SEPARATOR_WIN) = true then
        Except.error PyErr.valueError
      else if parts.any endsInSpaceOrDot = true then Except.error PyErr.valueError
      else Except.ok () := by
  unfold winValidateTailParts baseValidateTailParts
  by_cases hp : parts = []
  · subst hp
    rfl
  · rw [if_neg hp]
    by_cases h1 : (parts.any fun part => part.any fun ch => ch ∈ inv || ch = SEPARATOR_WIN) = true
    · rw [if_pos h1, if_pos h1]
    · rw [if_neg h1, if_neg h1]

theorem winValidate_ok_iff (inv : List Char) (parts : List Str) :
    winValidateTailParts inv parts = Except.ok () ↔
      ∀ p ∈ parts, (∀ ch ∈ p, ¬(ch ∈ inv ∨ ch = SEPARATOR_WIN)) ∧
        endsInSpaceOrDot p = false := by
  rw [winValidate_eq_ite]
  by_cases h1 : (parts.any fun part => part.any fun ch => ch ∈ inv || ch = SEPARATOR_WIN) = true
  · rw [if_pos h1]
    constructor
    · intro hcontr
      exact absurd hcontr (by simp)
    · intro hall
      obtain ⟨p, hpmem, hpany⟩ := List.any_eq_true.mp h1
      obtain ⟨ch, hchmem, hch⟩ := List.any_eq_true.mp hpany
      have hno := (hall p hpmem).1 ch hchmem
      simp at hch
      exact absurd hch hno
  · rw [if_neg h1]
    have h1f : (parts.any fun part => part.any fun ch => ch ∈ inv || ch = SEPARATOR_WIN) = false :=
      by simpa using h1
    by_cases h2 : parts.any endsInSpaceOrDot = true
    · rw [if_pos h2]
      constructor
      · intro hcontr
        exact absurd hcontr (by simp)
      · intro hall
        obtain ⟨p, hpmem, hpend⟩ := List.any_eq_true.mp h2
        have hfa := (hall p hpmem).2
        rw [hpend] at hfa
        cases hfa
    · rw [if_neg h2]
      constructor
      · intro _ p hpmem
        have h2f : parts.any endsInSpaceOrDot = false := by simpa using h2
        rw [List.any_eq_false] at h1f h2f
        refine ⟨?_, by simpa using h2f p hpmem⟩
        intro ch hchmem
        have hpa : (p.any fun ch => ch ∈ inv || ch = SEPARATOR_WIN) = false := by
          simpa using h1f p hpmem
        rw [List.any_eq_false] at hpa
        have hc := hpa ch hchmem
        simpa using hc
      · intro _
        rfl

theorem winValidate_ok_or_error (inv : List Char) (parts : List Str) :
    winValidateTailParts inv parts = Except.ok () ∨
      winValidateTailParts inv parts = Except.error PyErr.valueError := by
  rw [winValidate_eq_ite]
  by_cases h1 : (parts.any fun part => part.any fun ch => ch ∈ inv || ch = SEPARATOR_WIN) = true
  · rw [if_pos h1]
    right
    rfl
  · rw [if_neg h1]
    by_cases h2 : parts.any endsInSpaceOrDot = true
    · rw [if_pos h2]
      right
      rfl
    · rw [if_neg h2]
      left
      rfl

/-! ## Claim theorems -/

/-- C5: parsing the empty string yields `('', '', [])` under the POSIX syntax,
but the Windows parser returns a tail holding one empty segment
(`''.split(separator)` is `['']`), contradicting its own docstring
"The empty path would yield ('', '', [])". -/
theorem parse_empty_results :
    posixParsePath [] = ([], [], []) ∧
    winParsePath [] = Except.ok ([], [], [[]]) ∧
    ([[]] : List Str) ≠ [] :=
  ⟨rfl, rfl, by simp⟩

/-- C2: construction is not stateless.  Constructing the WinNT-namespace path
`\\?\Device\X` succeeds and leaves the class attribute `INVALID_PATH_CHARS`
cleared, so the construction of `a<b` — rejected with `ValueError` under the
original character set — succeeds afterwards. -/
theorem invalid_chars_state_leak :
    winFromStringS WIN_INVALID_PATH_CHARS ("\\\\?\\Device\\X".toList) =
      Except.ok (("\\\\?".toList, "\\".toList, ["Device".toList, "X".toList]), []) ∧
    WIN_INVALID_PATH_CHARS ≠ [] ∧
    winFromStringS WIN_INVALID_PATH_CHARS ("a<b".toList) = Except.error PyErr.valueError ∧
    winFromStringS [] ("a<b".toList) = Except.ok (([], [], ["a<b".toList]), []) :=
  ⟨rfl, by simp [WIN_INVALID_PATH_CHARS], rfl, rfl⟩

/-- C3: `BasePurePath.joinpath` never reaches the anchored-argument
`ValueError` nor the tail-extension result: the guard `elif path.anchor():`
calls the string attribute `anchor`, so every call with at least one argument
raises `TypeError` — here evaluated on a non-anchored and on an anchored
argument; only the zero-argument call returns the receiver unchanged. -/
theorem joinpath_always_typeerror :
    joinpathPosix (posixParsePath ("a/b".toList)) ["c".toList] =
      Except.error PyErr.typeError ∧
    joinpathPosix (posixParsePath ("/tmp".toList)) ["/etc".toList, "shadow".toList] =
      Except.error PyErr.typeError ∧
    joinpathPosix (posixParsePath ("a/b".toList)) [] =
      Except.ok (posixParsePath ("a/b".toList)) :=
  ⟨rfl, rfl, rfl⟩

/-- C8: the two duplicated copies of `PurePosixPath._parse_path` are not
extensionally equal: on `"//a"` the `posix.py` copy returns root `"//"` with
tail `["a"]`, while the `__init__.py` copy (which lacks the
leading-double-slash case) returns root `"/"` with tail `["", "a"]`. -/
theorem parse_path_copies_differ :
    posixParsePath ("//a".toList) = ([], "//".toList, ["a".toList]) ∧
    posixParsePathInit ("//a".toList) = ([], "/".toList, [[], "a".toList]) ∧
    posixParsePath ("//a".toList) ≠ posixParsePathInit ("//a".toList) :=
  ⟨rfl, rfl, by decide⟩

/-- C8 (amended): the two copies of `PurePosixPath._parse_path` agree on every
input that does not begin with a doubled separator that is not followed by a
third one. -/
theorem parse_path_copies_agree (s : Str)
    (h : ¬(s.take 1 = [SEPARATOR_POSIX] ∧ (s.drop 1).take 1 = [SEPARATOR_POSIX] ∧
      (s.drop 2).take 1 ≠ [SEPARATOR_POSIX])) :
    posixParsePath s = posixParsePathInit s := by
  cases s with
  | nil => rfl
  | cons c rest =>
    by_cases hc : c = SEPARATOR_POSIX
    · simp only [posixParsePath, posixParsePathInit, if_pos hc]
      rw [if_neg]
      intro hcond
      refine h ⟨by simp [hc], ?_, ?_⟩
      · simpa using hcond.1
      · simpa using hcond.2
    · simp [posixParsePath, posixParsePathInit, hc]

/-- C8 (amended, witness): the two copies agree at the concrete input `"/ab"`. -/
theorem parse_path_copies_agree_witness :
    posixParsePath ("/ab".toList) = posixParsePathInit ("/ab".toList) :=
  parse_path_copies_agree ("/ab".toList) (by decide)

/-- C1 (counterexample): the round-trip fails on two accepted inputs.  The
empty string — declared accepted — prints as `"."`, and the accepted Windows
UNC form `\\server\` (no forbidden characters, tail empty, so validation
succeeds) parses to drive `\\server` with empty root and tail, which prints
without the trailing separator. -/
theorem roundtrip_counterexample :
    posixRoundTrip [] = ['.'] ∧
    posixRoundTrip [] ≠ [] ∧
    winParsePath ("\\\\server\\".toList) = Except.ok ("\\\\server".toList, [], []) ∧
    winValidateTailParts WIN_INVALID_PATH_CHARS [] = Except.ok () ∧
    pathStr SEPARATOR_WIN ("\\\\server".toList) [] [] ≠ winNormalize ("\\\\server\\".toList) :=
  ⟨rfl, by decide, rfl, rfl, by decide⟩

/-- C1 (amended): for every non-empty input the POSIX parser round-trips
exactly, and the Windows parser round-trips modulo the forward-slash
normalization whenever the normalized input does not begin with a doubled
separator (the UNC/namespace family, where accepted inputs may print lossily);
the empty string prints as `"."`. -/
theorem roundtrip_nonempty (s : Str) (h : s ≠ []) :
    posixRoundTrip s = s ∧
    ((winNormalize s).take 2 ≠ [SEPARATOR_WIN, SEPARATOR_WIN] →
      ∀ d r t, winParsePath s = Except.ok (d, r, t) →
        pathStr SEPARATOR_WIN d r t = winNormalize s) := by
  refine ⟨posixRoundTrip_eq s h, ?_⟩
  intro h2 d r t hok
  unfold winParsePath at hok
  cases hval : winParsePathS WIN_INVALID_PATH_CHARS s with
  | error e => rw [hval] at hok; cases hok
  | ok rc =>
    obtain ⟨⟨d0, r0, t0⟩, c2⟩ := rc
    rw [hval] at hok
    simp only [Except.ok.injEq] at hok
    rw [hok] at hval
    exact winParsePathS_roundtrip WIN_INVALID_PATH_CHARS s h h2 d r t c2 hval

/-- C1 (amended, witness): the round-trip at the concrete non-empty input
`"a/b"`. -/
theorem roundtrip_nonempty_witness :
    posixRoundTrip ("a/b".toList) = "a/b".toList ∧
    ((winNormalize ("a/b".toList)).take 2 ≠ [SEPARATOR_WIN, SEPARATOR_WIN] →
      ∀ d r t, winParsePath ("a/b".toList) = Except.ok (d, r, t) →
        pathStr SEPARATOR_WIN d r t = winNormalize ("a/b".toList)) :=
  roundtrip_nonempty ("a/b".toList) (by decide)

/-- C6: for every constructed path the derived name fields satisfy
`name == pure_stem + "".join(suffixes)` and `name == stem + suffix`, whatever
the tail segments are (leading dots, interior repeated dots, trailing dots and
empty last segments included). -/
theorem name_decomposition_invariant (tail : List Str) :
    (parseName tail).name = (parseName tail).pureStem ++ (parseName tail).suffixes.flatten ∧
    (parseName tail).name = (parseName tail).stem ++ (parseName tail).suffix := by
  simp only [parseName]
  by_cases hguard : tail.getLastD [] = [] ∨ (tail.getLastD []).getLast? = some SUFFIX_SEPARATOR
  · rw [if_pos hguard]
    simp
  · rw [if_neg hguard]
    set name := tail.getLastD [] with hnm
    obtain ⟨p0, ps, hsp⟩ : ∃ p0 ps,
        strSplit SUFFIX_SEPARATOR (name.dropWhile (· = SUFFIX_SEPARATOR)) = p0 :: ps := by
      cases hx : strSplit SUFFIX_SEPARATOR (name.dropWhile (· = SUFFIX_SEPARATOR)) with
      | nil => exact absurd hx (strSplit_ne_nil _ _)
      | cons a as => exact ⟨a, as, rfl⟩
    rw [hsp]
    simp only [List.drop_succ_cons, List.drop_zero]
    have hrest : name.dropWhile (· = SUFFIX_SEPARATOR) =
        p0 ++ (ps.map (fun s => SUFFIX_SEPARATOR :: s)).flatten :=
      strSplit_decomp _ _ _ _ hsp
    have hnd : name = (name.takeWhile (· = SUFFIX_SEPARATOR) ++ p0) ++
        (ps.map (fun s => SUFFIX_SEPARATOR :: s)).flatten := by
      conv_lhs => rw [← List.takeWhile_append_dropWhile (p := (· = SUFFIX_SEPARATOR)) (l := name)]
      rw [hrest, List.append_assoc]
    by_cases hps : ps = []
    · subst hps
      simp
    · have hE : ps.map (fun s => SUFFIX_SEPARATOR :: s) ≠ [] := by
        simpa using hps
      have hlastD : (ps.map (fun s => SUFFIX_SEPARATOR :: s)).getLastD [] =
          (ps.map (fun s => SUFFIX_SEPARATOR :: s)).getLast hE := by
        rw [List.getLastD_eq_getLast?, List.getLast?_eq_getLast _ hE, Option.getD_some]
      have hlast_ne : (ps.map (fun s => SUFFIX_SEPARATOR :: s)).getLast hE ≠ [] := by
        have hmem := List.getLast_mem hE
        obtain ⟨x, -, hx⟩ := List.mem_map.mp hmem
        rw [← hx]
        simp
      have hflat : (ps.map (fun s => SUFFIX_SEPARATOR :: s)).flatten =
          (ps.map (fun s => SUFFIX_SEPARATOR :: s)).dropLast.flatten ++
            (ps.map (fun s => SUFFIX_SEPARATOR :: s)).getLast hE := by
        conv_lhs => rw [← List.dropLast_append_getLast hE]
        simp
      obtain ⟨A, hA⟩ : ∃ A, name = A ++ (ps.map (fun s => SUFFIX_SEPARATOR :: s)).flatten :=
        ⟨name.takeWhile (· = SUFFIX_SEPARATOR) ++ p0, hnd⟩
      obtain ⟨B, hB⟩ : ∃ B, name = B ++ (ps.map (fun s => SUFFIX_SEPARATOR :: s)).getLast hE :=
        ⟨A ++ (ps.map (fun s => SUFFIX_SEPARATOR :: s)).dropLast.flatten, by
          rw [hA, hflat, ← List.append_assoc]⟩
      constructor
      · rw [if_pos hE]
        rw [hA, take_sub_length_append]
      · rw [hlastD, if_pos hlast_ne]
        rw [hB, take_sub_length_append]

/-- C9: Windows tail validation succeeds exactly on segments free of forbidden
characters and not ending in a space or a dot; hence any non-empty segment
ending in space/dot makes construction raise `ValueError`, a validated path
can never contain a `'.'` or `'..'` segment, and empty segments are accepted. -/
theorem win_validate_characterization (parts : List Str) :
    (winValidateTailParts WIN_INVALID_PATH_CHARS parts = Except.ok () ↔
      ∀ p ∈ parts, (∀ ch ∈ p, ¬(ch ∈ WIN_INVALID_PATH_CHARS ∨ ch = SEPARATOR_WIN)) ∧
        endsInSpaceOrDot p = false) ∧
    (∀ p ∈ parts, p ≠ [] → (p.getLast? = some ' ' ∨ p.getLast? = some '.') →
      winValidateTailParts WIN_INVALID_PATH_CHARS parts = Except.error PyErr.valueError) ∧
    (winValidateTailParts WIN_INVALID_PATH_CHARS parts = Except.ok () →
      ['.'] ∉ parts ∧ ['.', '.'] ∉ parts) ∧
    winValidateTailParts WIN_INVALID_PATH_CHARS (parts.filter (fun p => p = [])) =
      Except.ok () := by
  refine ⟨winValidate_ok_iff _ _, ?_, ?_, ?_⟩
  · intro p hpmem hpne hlast
    rcases winValidate_ok_or_error WIN_INVALID_PATH_CHARS parts with hok | herr
    · exfalso
      have hends := ((winValidate_ok_iff _ _).mp hok p hpmem).2
      have : endsInSpaceOrDot p = true := by
        unfold endsInSpaceOrDot
        rcases hlast with h | h <;> rw [h] <;> simp
      rw [this] at hends
      cases hends
    · exact herr
  · intro hok
    constructor
    · intro hmem
      have hends := ((winValidate_ok_iff _ _).mp hok _ hmem).2
      cases hends
    · intro hmem
      have hends := ((winValidate_ok_iff _ _).mp hok _ hmem).2
      cases hends
  · rw [winValidate_ok_iff]
    intro p hpmem
    have hpe : p = [] := by
      have hf := (List.mem_filter.mp hpmem).2
      simpa using hf
    subst hpe
    constructor
    · intro ch hch
      cases hch
    · rfl

/-- C9 (witness): the theorem applied at `parts = [['.'], []]`, discharging the
inner hypotheses: the `'.'` segment makes validation raise `ValueError`. -/
theorem win_validate_characterization_witness :
    winValidateTailParts WIN_INVALID_PATH_CHARS [['.'], []] =
      Except.error PyErr.valueError :=
  (win_validate_characterization [['.'], []]).2.1 ['.'] (by simp) (by simp) (by simp)

/-- C10: `PureWindowsPath.is_reserved` holds exactly when the upper-cased
`pure_stem` is one of `CON`, `PRN`, `AUX`, `NUL`, `COM0`–`COM8`, `LPT0`–`LPT8`;
in particular `CON.txt` is reserved (suffixes are ignored), `COM9` and `LPT9`
are not, and an empty `pure_stem` is never reserved. -/
theorem is_reserved_characterization (tail : List Str) :
    (winIsReserved (parseName tail).pureStem = true ↔
      ((parseName tail).pureStem).map Char.toUpper ∈ RESERVED_NAMES) ∧
    RESERVED_NAMES =
      (["CON", "PRN", "AUX", "NUL",
        "COM0", "COM1", "COM2", "COM3", "COM4", "COM5", "COM6", "COM7", "COM8",
        "LPT0", "LPT1", "LPT2", "LPT3", "LPT4", "LPT5", "LPT6", "LPT7",
        "LPT8"].map String.toList) ∧
    winIsReserved (parseName ["CON.txt".toList]).pureStem = true ∧
    winIsReserved (parseName ["COM9".toList]).pureStem = false ∧
    winIsReserved (parseName ["LPT9".toList]).pureStem = false ∧
    winIsReserved [] = false := by
  refine ⟨?_, by decide, by decide, by decide, by decide, rfl⟩
  by_cases hps : (parseName tail).pureStem = []
  · rw [hps]
    constructor
    · intro hcontr
      cases hcontr
    · intro hmem
      exact absurd hmem (by decide)
  · simp [winIsReserved, hps, CASE_SENSITIVE_WIN]

theorem commonPrefixLen_take_eq (tS tO : List Str) :
    tS.take (commonPrefixLen tS tO) = tO.take (commonPrefixLen tS tO) := by
  induction tS generalizing tO with
  | nil => cases tO <;> simp [commonPrefixLen]
  | cons a as ih =>
    cases tO with
    | nil => simp [commonPrefixLen]
    | cons b bs =>
      by_cases hab : a = b
      · simp [commonPrefixLen, hab, ih bs]
      · simp [commonPrefixLen, hab]

theorem commonPrefixLen_maximal (tS tO : List Str) (n : Nat)
    (htake : tS.take n = tO.take n) (hlen : n ≤ tS.length) :
    n ≤ commonPrefixLen tS tO := by
  induction n generalizing tS tO with
  | zero => exact Nat.zero_le _
  | succ m ih =>
    cases tS with
    | nil => simp at hlen
    | cons a as =>
      cases tO with
      | nil => simp at htake
      | cons b bs =>
        simp only [List.take_succ_cons, List.cons.injEq] at htake
        simp only [List.length_cons, Nat.succ_le_succ_iff] at hlen
        rw [commonPrefixLen, if_pos htake.1]
        exact Nat.succ_le_succ (ih as bs htake.2 hlen)

/-- C4: `relative_to(walk_up=True)` (modelled from the spec, the implementing
class being absent from the sources) returns the minimal `..`-climb plus the
descent: the two concrete cases of the repository's test-suite hold —
`/foo/bar/baz` relative to `/foo/spam/lobster` is `../../bar/baz`, and
`foo/bar/baz` relative to `spam/spam/lobster` is `../../../foo/bar/baz` — and
the climb really is against the *longest* common prefix: the compared prefixes
agree and any longer agreeing prefix is impossible. -/
theorem relative_to_walk_up_examples :
    relativeToWalkUp (posixParsePath ("/foo/bar/baz".toList))
        (posixParsePath ("/foo/spam/lobster".toList)) =
      Except.ok (posixParsePath ("../../bar/baz".toList)) ∧
    relativeToWalkUp (posixParsePath ("foo/bar/baz".toList))
        (posixParsePath ("spam/spam/lobster".toList)) =
      Except.ok (posixParsePath ("../../../foo/bar/baz".toList)) ∧
    (∀ tS tO : List Str,
      tS.take (commonPrefixLen tS tO) = tO.take (commonPrefixLen tS tO)) ∧
    (∀ tS tO : List Str, ∀ n, tS.take n = tO.take n → n ≤ tS.length →
      n ≤ commonPrefixLen tS tO) :=
  ⟨rfl, rfl, commonPrefixLen_take_eq, commonPrefixLen_maximal⟩

/-- C4 (witness): the maximality component applied at a concrete input. -/
theorem relative_to_walk_up_examples_witness :
    2 ≤ commonPrefixLen [['a'], ['b'], ['c']] [['a'], ['b']] :=
  relative_to_walk_up_examples.2.2.2 [['a'], ['b'], ['c']] [['a'], ['b']] 2
    (by decide) (by decide)

/-- C6 (witness): the invariant instantiated at the concrete tail
`["a.tar.gz"]`. -/
theorem name_decomposition_invariant_witness :
    (parseName ["a.tar.gz".toList]).name =
        (parseName ["a.tar.gz".toList]).pureStem ++
          (parseName ["a.tar.gz".toList]).suffixes.flatten ∧
      (parseName ["a.tar.gz".toList]).name =
        (parseName ["a.tar.gz".toList]).stem ++ (parseName ["a.tar.gz".toList]).suffix :=
  name_decomposition_invariant ["a.tar.gz".toList]

/-- C10 (witness): the reservation test instantiated at the tail
`["CON.txt"]`. -/
theorem is_reserved_characterization_witness :
    winIsReserved (parseName ["CON.txt".toList]).pureStem = true ↔
      ((parseName ["CON.txt".toList]).pureStem).map Char.toUpper ∈ RESERVED_NAMES :=
  (is_reserved_characterization ["CON.txt".toList]).1

/-- C7 (counterexample): matching against the empty pattern string raises
`ValueError` — exactly what the repository's own `test_match_empty` asserts —
so matching is not error-free on every pattern. -/
theorem match_empty_pattern_error :
    matchPosix (posixParsePath ("a".toList)) [] = Except.error PyErr.valueError := rfl

/-- C7 (amended): pattern compilation is total and matching a path against any
*non-empty* pattern returns a boolean and never raises; the empty pattern
raises `ValueError`. -/
theorem match_total_nonempty (self : Str × Str × List Str) (pattern : Str)
    (h : pattern ≠ []) : ∃ b, matchPosix self pattern = Except.ok b := by
  simp only [matchPosix, if_neg h]
  split
  · exact ⟨_, rfl⟩
  · exact ⟨_, rfl⟩

/-- C7 (amended, witness): matching at a concrete non-empty pattern. -/
theorem match_total_nonempty_witness :
    ∃ b, matchPosix (posixParsePath ("a".toList)) ("*".toList) = Except.ok b :=
  match_total_nonempty (posixParsePath ("a".toList)) ("*".toList) (by decide)

end PathlibAlt
